import Mathlib

/-!
# Verification of the contestweb core

Shallow embedding of the contest aggregation engine
(`src/lib/rate-limit.ts`: `fetchContests`, `toggleBookmark`), of the video
resolution heuristic (`src/app/api/get-video-url/route.ts`:
`getBaseContestName`, `normalize` and the candidate matcher), and of the
markup extractor (the `ytInitialData` regex capture shared by the video
route variants).

Machine integers of the source are JavaScript numbers used only at integer
values (Unix epoch seconds, durations); they are modelled as `Int`.
External collaborators (the HTTP fetch layer, `Date` parsing of ISO
strings, `JSON.parse`) are modelled as inputs: each endpoint arrives as an
already-settled promise carrying a structured payload, ISO dates arrive as
their derived epoch seconds, and `JSON.parse` is an `Option`-valued
parameter where `none` models a parse exception.
-/

namespace ContestWeb

/-- The three temporal statuses of `Contest['status']`. -/
inductive Status where
  | UPCOMING
  | RUNNING
  | PAST
deriving DecidableEq, Repr

/-- `id: number | string` of the `Contest` interface. -/
inductive ContestId where
  | num (n : Int)
  | str (s : String)
deriving DecidableEq, Repr

/-- The normalized `Contest` record (rate-limit.ts lines 31-39). -/
structure Contest where
  id : ContestId
  name : String
  durationSeconds : Int
  startTimeSeconds : Int
  source : String
  status : Status
  url : String
deriving DecidableEq, Repr

/-- The status computation inlined in the Codeforces branch
(rate-limit.ts lines 128-131) and the Codechef branch (lines 149-152):
`status = UPCOMING; if (currentTime > endTimeSeconds) status = PAST;
else if (currentTime >= startTimeSeconds) status = RUNNING;`
where `endTimeSeconds = startTimeSeconds + durationSeconds`. -/
def classify (startTimeSeconds durationSeconds now : Int) : Status :=
  if now > startTimeSeconds + durationSeconds then .PAST
  else if now ≥ startTimeSeconds then .RUNNING
  else .UPCOMING

/-- One element of `data.result` of a Codeforces payload.  The fields the
mapper reads (`cf.id`, `cf.name`, `cf.startTimeSeconds`,
`cf.durationSeconds`) are taken at their expected types. -/
structure CFItem where
  id : Int
  name : String
  startTimeSeconds : Int
  durationSeconds : Int
deriving DecidableEq, Repr

/-- The per-item mapper of the Codeforces branch (rate-limit.ts
lines 125-141). -/
def cfMapItem (now : Int) (cf : CFItem) : Contest :=
  { id := .num cf.id
    name := cf.name
    durationSeconds := cf.durationSeconds
    startTimeSeconds := cf.startTimeSeconds
    source := "Codeforces"
    status := classify cf.startTimeSeconds cf.durationSeconds now
    url := "https://codeforces.com/contest/" ++ toString cf.id }

/-- A Codeforces payload: `data.status` and `data.result`, where
`result = none` models a `result` field that is not an array. -/
structure CFPayload where
  status : String
  result : Option (List CFItem)
deriving DecidableEq, Repr

/-- Whitespace characters matched by the JavaScript `\s` class (restricted
to the ASCII whitespace occurring in the data handled here). -/
def jsWs (c : Char) : Bool :=
  c = ' ' || c = '\t' || c = '\n' || c = '\r'

/-- One step of the regex `/\s*\(.*?\)/` used by the Codechef name cleanup:
`.*?` is lazy and `.` does not match line terminators, so the body ends at
the first `)` and fails on a line terminator.  Returns the remainder after
the closing `)`. -/
def lazyToClose : List Char → Option (List Char)
  | [] => none
  | c :: cs =>
    if c = ')' then some cs
    else if c = '\n' || c = '\r' then none
    else lazyToClose cs

/-- Match `\s*\(` at the head (the `\s` characters cannot satisfy `\(`, so
the greedy prefix is deterministic), then the lazy body up to `)`. -/
def wsParenGroup : List Char → Option (List Char)
  | [] => none
  | c :: cs =>
    if c = '(' then lazyToClose cs
    else if jsWs c then wsParenGroup cs
    else none

/-- `c.contest_name.replace(/\s*\(.*?\)/, '')` (rate-limit.ts line 153):
the regex is not global, so only the first (leftmost) occurrence is
removed. -/
def stripFirstParen : List Char → List Char
  | [] => []
  | c :: cs =>
    match wsParenGroup (c :: cs) with
    | some rest => rest
    | none => c :: stripFirstParen cs

/-- The Codechef display-name cleanup applied to `contest_name`. -/
def ccStripName (s : String) : String :=
  String.mk (stripFirstParen s.data)

/-- One element of `data.contests` of a Codechef payload.
`contest_name = none` models a JSON value that is not a string, on which
`c.contest_name.replace(...)` throws a `TypeError`.
`contest_start_seconds` stands for
`Math.floor(new Date(c.contest_start_date_iso).getTime() / 1000)` (the
`Date` parser is an external collaborator) and `contest_duration` for the
`parseInt(c.contest_duration, 10)` value in minutes. -/
structure CCItem where
  contest_code : String
  contest_name : Option String
  contest_start_seconds : Int
  contest_duration : Int
deriving DecidableEq, Repr

/-- The per-item mapper of the Codechef branch (rate-limit.ts
lines 146-163).  A non-string `contest_name` makes the `.replace` call
throw, which aborts the whole `createAsyncThunk` body. -/
def ccMapItem (now : Int) (c : CCItem) : Except String Contest :=
  match c.contest_name with
  | none => .error "TypeError: c.contest_name.replace is not a function"
  | some nm =>
    .ok { id := .str c.contest_code
          name := ccStripName nm
          durationSeconds := c.contest_duration * 60
          startTimeSeconds := c.contest_start_seconds
          source := "Codechef"
          status := classify c.contest_start_seconds (c.contest_duration * 60) now
          url := "https://www.codechef.com/" ++ c.contest_code }

/-- A Codechef payload: `data.status` and `data.contests`, where
`contests = none` models a `contests` field that is not an array. -/
structure CCPayload where
  status : String
  contests : Option (List CCItem)
deriving DecidableEq, Repr

/-- One element of the merged LeetCode candidate list. `duration = none`
models an absent `lc.duration` (`lc.duration ?? 0`). -/
structure LCItem where
  titleSlug : String
  title : String
  duration : Option Int
  startTime : Int
deriving DecidableEq, Repr

/-- The per-item mapper of the LeetCode branch (rate-limit.ts
lines 173-185): `status` defaults to `PAST` and becomes `UPCOMING` when
`lc.startTime > currentTime`; the duration plays no role. -/
def lcMapItem (now : Int) (lc : LCItem) : Contest :=
  { id := .str lc.titleSlug
    name := lc.title
    durationSeconds := lc.duration.getD 0
    startTimeSeconds := lc.startTime
    source := "LeetCode"
    status := if lc.startTime > now then .UPCOMING else .PAST
    url := "https://leetcode.com/contest/" ++ lc.titleSlug }

/-- A LeetCode payload: `pastContests = none` models an absent or
non-array `data.data.pastContests.data`, `topTwoContests = none` an absent
or non-array `data.data.topTwoContests` (rate-limit.ts lines 166-172). -/
structure LCPayload where
  pastContests : Option (List LCItem)
  topTwoContests : Option (List LCItem)
deriving DecidableEq, Repr

/-- The Codeforces branch of the endpoint loop (rate-limit.ts
lines 120-141): the shape guard `data.status !== 'OK' ||
!Array.isArray(data.result)` skips the endpoint (zero records). -/
def cfAdapter (now : Int) (p : CFPayload) : Except String (List Contest) :=
  if p.status = "OK" then
    match p.result with
    | some items => .ok (items.map (cfMapItem now))
    | none => .ok []
  else .ok []

/-- `Array.prototype.map` with a possibly-throwing callback: items are
visited left to right and the first throw aborts the whole map. -/
def mapItems {α β : Type} (f : α → Except String β) : List α → Except String (List β)
  | [] => .ok []
  | a :: l => do
    let b ← f a
    let bs ← mapItems f l
    pure (b :: bs)

/-- The Codechef branch (rate-limit.ts lines 142-163): the shape guard
`data.status !== 'success' || !Array.isArray(data.contests)` skips the
endpoint; otherwise `.map` runs left to right and a throwing item aborts. -/
def ccAdapter (now : Int) (p : CCPayload) : Except String (List Contest) :=
  if p.status = "success" then
    match p.contests with
    | some items => mapItems (ccMapItem now) items
    | none => .ok []
  else .ok []

/-- The LeetCode branch (rate-limit.ts lines 164-185): both optional
shapes are concatenated (`pastContests` first) and mapped. -/
def lcAdapter (now : Int) (p : LCPayload) : Except String (List Contest) :=
  .ok (((p.pastContests.getD []) ++ (p.topTwoContests.getD [])).map (lcMapItem now))

/-- The outcome of one settled endpoint promise
(`Promise.allSettled`, rate-limit.ts line 113): `fulfilled` carries the
parsed JSON payload; `rejected` covers a network error or a non-2xx
response (the `!res.ok` throw on line 106). -/
inductive SettledResult (α : Type) where
  | fulfilled (value : α)
  | rejected
deriving DecidableEq, Repr

/-- The inner loop over one source's settled endpoints (rate-limit.ts
lines 115-192): rejected endpoints are skipped, fulfilled payloads run
through the source's branch, and records are concatenated in endpoint
order.  A throwing branch aborts. -/
def processSource {α : Type} (adapter : α → Except String (List Contest)) :
    List (SettledResult α) → Except String (List Contest)
  | [] => .ok []
  | .rejected :: rest => processSource adapter rest
  | .fulfilled d :: rest => do
    let cs ← adapter d
    let csRest ← processSource adapter rest
    pure (cs ++ csRest)

/-- The settled endpoint results for the three configured sources, in the
order of the `sources` array (rate-limit.ts lines 91-95). -/
structure FetchInputs where
  codeforces : List (SettledResult CFPayload)
  codechef : List (SettledResult CCPayload)
  leetcode : List (SettledResult LCPayload)
deriving DecidableEq, Repr

/-- The accumulation of `allContests` across the three sources, before the
emptiness check and the sort (rate-limit.ts lines 96-193). -/
def merged (now : Int) (inp : FetchInputs) : Except String (List Contest) := do
  let cf ← processSource (cfAdapter now) inp.codeforces
  let cc ← processSource (ccAdapter now) inp.codechef
  let lc ← processSource (lcAdapter now) inp.leetcode
  pure ((cf ++ cc) ++ lc)

/-- The comparator `(a, b) => a.startTimeSeconds - b.startTimeSeconds`
(rate-limit.ts line 198), as the ordering it induces. -/
def startLE (a b : Contest) : Bool :=
  a.startTimeSeconds ≤ b.startTimeSeconds

/-- Insert a record into an already sorted list, before the first element
it compares `≤` to — later equal keys stay behind it. -/
def insertByStart (c : Contest) : List Contest → List Contest
  | [] => [c]
  | d :: l => if startLE c d then c :: d :: l else d :: insertByStart c l

/-- `allContests.sort(...)`: `Array.prototype.sort` is required to be
stable, and a stable sort under a consistent comparator is extensionally
unique, so it is modelled by a (structurally recursive) stable insertion
sort. -/
def sortByStart : List Contest → List Contest
  | [] => []
  | c :: l => insertByStart c (sortByStart l)

/-- The `fetchContests` thunk body (rate-limit.ts lines 86-204): after all
sources settle, an empty merged list throws
`'No contests could be fetched from any source'`, which the surrounding
`catch` turns into `rejectWithValue`; otherwise the sorted list is
returned.  Any throw escaping an adapter is caught by the same `catch`. -/
def fetchContests (now : Int) (inp : FetchInputs) : Except String (List Contest) :=
  match merged now inp with
  | .error e => .error e
  | .ok allContests =>
    if allContests.length = 0 then .error "No contests could be fetched from any source"
    else .ok (sortByStart allContests)

/-- The `toggleBookmark` reducer (rate-limit.ts lines 219-228): bookmarks
are a plain list of contest ids; `indexOf === -1` appends, otherwise
`splice(index, 1)` removes the first occurrence. -/
def toggleBookmark (bookmarks : List ContestId) (contestId : ContestId) : List ContestId :=
  if bookmarks.contains contestId then bookmarks.erase contestId
  else bookmarks ++ [contestId]

/-! ## Video resolution (get-video-url route) -/

/-- `needle.isPrefixOf hay` for character lists, spelled out. -/
def leadsWith : List Char → List Char → Bool
  | [], _ => true
  | _ :: _, [] => false
  | p :: ps, c :: cs => p = c && leadsWith ps cs

/-- `String.prototype.includes`: the needle occurs as a contiguous
substring of the haystack. -/
def containsSub (hay needle : List Char) : Bool :=
  match hay with
  | [] => needle.isEmpty
  | _ :: t => leadsWith needle hay || containsSub t needle

/-- `String.prototype.trim` on a character list. -/
def trimChars (l : List Char) : List Char :=
  ((l.dropWhile jsWs).reverse.dropWhile jsWs).reverse

/-- Drop a greedy run of `\s` characters. -/
def dropWs : List Char → List Char
  | [] => []
  | c :: cs => if jsWs c then dropWs cs else c :: cs

/-- Match `\s*X\s*` at the head for a literal character `X` (used with `(`
and `)`), returning the remainder after the trailing greedy `\s*`.
Deterministic because `X` is not a whitespace character. -/
def wsAroundChar (target : Char) : List Char → Option (List Char)
  | [] => none
  | c :: cs =>
    if c = target then some (dropWs cs)
    else if jsWs c then wsAroundChar target cs
    else none

/-- Global replacement of `/\s*X\s*/g` by `X`, scanning left to right and
resuming after each match, with the input length as fuel (every match
consumes at least the `X` character, so the fuel never runs out). -/
def collapseAroundAux (target : Char) : Nat → List Char → List Char
  | 0, l => l
  | _ + 1, [] => []
  | fuel + 1, c :: cs =>
    match wsAroundChar target (c :: cs) with
    | some rest => target :: collapseAroundAux target fuel rest
    | none => c :: collapseAroundAux target fuel cs

/-- `.replace(/\s*\(\s*/g, "(")` and `.replace(/\s*\)\s*/g, ")")`
(get-video-url route lines 257-258), for `target` `(` and `)`. -/
def collapseAround (target : Char) (l : List Char) : List Char :=
  collapseAroundAux target l.length l

/-- The `normalize` utility of the video route (lines 253-260): lowercase,
trim, standardize whitespace around parentheses, strip periods.
`Char.toLower` covers the ASCII range of `String.prototype.toLowerCase`
exercised by the contest names handled here. -/
def normalize (str : String) : String :=
  String.mk
    ((collapseAround ')' (collapseAround '(' (trimChars (str.data.map Char.toLower)))).filter
      (fun ch => ch ≠ '.'))

/-- Case-insensitive literal match (the regex carries the `i` flag): the
pattern is given lowercased; returns the remainder. -/
def dropLitCI : List Char → List Char → Option (List Char)
  | [], l => some l
  | _ :: _, [] => none
  | p :: ps, c :: cs => if c.toLower = p then dropLitCI ps cs else none

/-- The tail `\s*\d\)` of the suffix regex: greedy whitespace, one digit,
a closing parenthesis; returns the remainder. -/
def ratedTail : List Char → Option (List Char)
  | [] => none
  | c :: cs =>
    if jsWs c then ratedTail cs
    else if c.isDigit then
      match cs with
      | ')' :: rest => some rest
      | _ => none
    else none

/-- Match the whole `/\(rated for div\.\s*\d\)/i` at the head.  Note the
escaped period: the literal part is `(rated for div.` including a `.`
character after `div`. -/
def ratedSuffixAt (l : List Char) : Option (List Char) :=
  match dropLitCI ("(rated for div.".data) l with
  | none => none
  | some rest => ratedTail rest

/-- `name.replace(/\(rated for div\.\s*\d\)/i, "")`: not global, so only
the first occurrence is removed. -/
def stripRated : List Char → List Char
  | [] => []
  | c :: cs =>
    match ratedSuffixAt (c :: cs) with
    | some rest => rest
    | none => c :: stripRated cs

/-- The `getBaseContestName` utility of the video route (lines 263-265):
strip the rated-division suffix, then trim. -/
def getBaseContestName (name : String) : String :=
  String.mk (trimChars (stripRated name.data))

/-- One parsed video candidate (videoId, concatenated title runs, first
owner-text run lowercased) as built on route lines 417-430. -/
structure Video where
  videoId : String
  title : String
  channel : String
deriving DecidableEq, Repr

/-- `TLE_CHANNEL` (route line 346). -/
def tleChannel : String := "tle eliminators - by priyansh"

/-- The predicate of `videos.find(...)` (route lines 451-458), applied to
the normalized base contest name. -/
def videoMatches (normalizedBaseContestName : String) (v : Video) : Bool :=
  let normalizedTitle := normalize v.title
  let hasExactContestName := containsSub normalizedTitle.data normalizedBaseContestName.data
  let hasTLESignature := containsSub normalizedTitle.data ("| tle eliminators".data)
  let isTLEChannel := v.channel = tleChannel
  hasExactContestName && hasTLESignature && isTLEChannel

/-- `videos.find(...)` with the matcher above, on
`normalize(getBaseContestName(name))` (route line 347). -/
def findMatchingVideo (name : String) (videos : List Video) : Option Video :=
  videos.find? (videoMatches (normalize (getBaseContestName name)))

/-- The `videoUrl` produced for a contest name from the parsed candidate
list (route lines 460-462): the watch URL of the first matching candidate,
or no URL. -/
def resolveVideoUrl (name : String) (videos : List Video) : Option String :=
  (findMatchingVideo name videos).map
    (fun v => "https://www.youtube.com/watch?v=" ++ v.videoId)

/-! ## Markup extraction (`var ytInitialData = ({.*?});</script>`) -/

/-- Case-sensitive literal match returning the remainder. -/
def dropLit : List Char → List Char → Option (List Char)
  | [], l => some l
  | _ :: _, [] => none
  | p :: ps, c :: cs => if c = p then dropLit ps cs else none

/-- The lazy `.*?` body of the capture group: at each point first try to
close with `};</script>`; otherwise consume one character, failing on a
line terminator (`.` does not match them).  Returns the body characters
before the closing `}`. -/
def lazyBody (l : List Char) : Option (List Char) :=
  if leadsWith ("\x7d;</script>".data) l then some []
  else
    match l with
    | [] => none
    | c :: cs =>
      if c = '\n' || c = '\r' then none
      else (lazyBody cs).map (fun body => c :: body)

/-- `html.match(/var ytInitialData = ({.*?});<\/script>/)`: scan for the
leftmost position where the whole regex matches and return the text of the
capture group `({.*?})`.  On a failed attempt the scan resumes one
character further, as a regex engine does. -/
def extractInitialData : List Char → Option (List Char)
  | [] => none
  | c :: cs =>
    match dropLit ("var ytInitialData = ".data) (c :: cs) with
    | some rest =>
      match rest with
      | '{' :: body0 =>
        match lazyBody body0 with
        | some body => some ('{' :: (body ++ ['}']))
        | none => extractInitialData cs
      | _ => extractInitialData cs
    | none => extractInitialData cs

/-- The extraction boundary of the video route variant
(src/unnamed/part_000 lines 152-165): if the marker regex does not match,
respond `{ videoUrl: null }`; if `JSON.parse` of the captured text throws
(modelled by `parseJson` returning `none`), the inner `catch` also
responds `{ videoUrl: null }`; otherwise the parsed data flows to the
downstream matcher `resolve`. -/
def videoUrlFromHtml {α : Type} (parseJson : String → Option α)
    (resolve : α → Option String) (html : String) : Option String :=
  match extractInitialData html.data with
  | none => none
  | some captured =>
    match parseJson (String.mk captured) with
    | none => none
    | some data => resolve data

/-! ## Well-formedness of payload items

The only per-item mapping that can throw is the Codechef one (a non-string
`contest_name`); the following predicates say that no accepted Codechef
payload contains such an item. -/

/-- The item's `contest_name` is a string, so `.replace` does not throw. -/
def ccItemOk (it : CCItem) : Bool := it.contest_name.isSome

/-- Every item of an array-shaped `contests` field maps without throwing. -/
def ccPayloadOk (p : CCPayload) : Bool :=
  match p.contests with
  | some items => items.all ccItemOk
  | none => true

/-- A settled Codechef endpoint whose payload (if any) maps cleanly. -/
def settledCCOk (r : SettledResult CCPayload) : Bool :=
  match r with
  | .fulfilled p => ccPayloadOk p
  | .rejected => true

/-- No payload item anywhere in the inputs makes a per-item mapping throw. -/
def itemsWellFormed (inp : FetchInputs) : Bool :=
  inp.codechef.all settledCCOk

/-! ## Concrete example inputs used by counterexamples and witnesses -/

/-- A LeetCode item that is running at `now = 120`
(`startTime = 100`, `duration = 50`). -/
def lcItemEx : LCItem :=
  { titleSlug := "weekly-contest-1", title := "Weekly Contest 1"
    duration := some 50, startTime := 100 }

/-- Fetch inputs whose only fulfilled endpoint is a LeetCode payload
carrying `lcItemEx`. -/
def inpLCOnly : FetchInputs :=
  { codeforces := [], codechef := []
    leetcode := [.fulfilled { pastContests := some [lcItemEx], topTwoContests := none }] }

/-- The record `fetchContests` produces for `lcItemEx` at `now = 120`. -/
def lcContestEx : Contest :=
  { id := .str "weekly-contest-1", name := "Weekly Contest 1"
    durationSeconds := 50, startTimeSeconds := 100, source := "LeetCode"
    status := .PAST, url := "https://leetcode.com/contest/weekly-contest-1" }

/-- A valid Codeforces item. -/
def cfItemEx : CFItem :=
  { id := 42, name := "Round 42", startTimeSeconds := 500, durationSeconds := 100 }

/-- A Codechef item whose `contest_name` is not a string: mapping it
throws. -/
def ccBadItem : CCItem :=
  { contest_code := "START99", contest_name := none
    contest_start_seconds := 700, contest_duration := 3 }

/-- A valid Codeforces payload carrying `cfItemEx`. -/
def cfOkPayload : CFPayload := { status := "OK", result := some [cfItemEx] }

/-- A shape-valid Codechef payload whose single item throws. -/
def ccThrowPayload : CCPayload := { status := "success", contests := some [ccBadItem] }

/-- Inputs where the Codeforces endpoint yields one record and the
Codechef endpoint holds a shape-valid payload with one throwing item. -/
def inpMixedBad : FetchInputs :=
  { codeforces := [.fulfilled cfOkPayload]
    codechef := [.fulfilled ccThrowPayload]
    leetcode := [] }

/-- The record `fetchContests` produces for `cfItemEx` at `now = 0`. -/
def cfContestEx : Contest :=
  { id := .num 42, name := "Round 42", durationSeconds := 100
    startTimeSeconds := 500, source := "Codeforces"
    status := .UPCOMING, url := "https://codeforces.com/contest/42" }

/-- The candidate of the end-to-end video example: title
`"Weekly Contest 400 | TLE Eliminators"`, channel (lowercased)
`"tle eliminators - by priyansh"`. -/
def videoEx : Video :=
  { videoId := "abc123", title := "Weekly Contest 400 | TLE Eliminators"
    channel := "tle eliminators - by priyansh" }

/-- A Codechef contest and a LeetCode contest carrying the same `id`. -/
def ccContestDup : Contest :=
  { id := .str "weekly-contest-400", name := "Starters"
    durationSeconds := 7200, startTimeSeconds := 1000, source := "Codechef"
    status := .PAST, url := "https://www.codechef.com/weekly-contest-400" }

/-- The LeetCode contest sharing `ccContestDup`'s id. -/
def lcContestDup : Contest :=
  { id := .str "weekly-contest-400", name := "Weekly Contest 400"
    durationSeconds := 5400, startTimeSeconds := 2000, source := "LeetCode"
    status := .PAST, url := "https://leetcode.com/contest/weekly-contest-400" }

/-- First item of the sortedness witness (latest start). -/
def cfItemA : CFItem := { id := 1, name := "A", startTimeSeconds := 200, durationSeconds := 10 }

/-- Second item of the sortedness witness (ties with the third). -/
def cfItemB : CFItem := { id := 2, name := "B", startTimeSeconds := 100, durationSeconds := 20 }

/-- Third item of the sortedness witness (ties with the second). -/
def cfItemC : CFItem := { id := 3, name := "C", startTimeSeconds := 100, durationSeconds := 30 }

/-- Inputs for the sortedness/stability witness: one Codeforces endpoint
returning three items, two of which tie on `startTimeSeconds`. -/
def inpSortWitness : FetchInputs :=
  { codeforces := [.fulfilled { status := "OK", result := some [cfItemA, cfItemB, cfItemC] }]
    codechef := [], leetcode := [] }

/-- The merged (pre-sort) list `inpSortWitness` produces at `now = 150`. -/
def mSortWitness : List Contest :=
  [cfMapItem 150 cfItemA, cfMapItem 150 cfItemB, cfMapItem 150 cfItemC]

/-- The sorted aggregation result for `inpSortWitness` at `now = 150`:
the tied records keep their input order. -/
def lSortWitness : List Contest :=
  [cfMapItem 150 cfItemB, cfMapItem 150 cfItemC, cfMapItem 150 cfItemA]

/-- A Codeforces payload rejected by the shape guard (wrong sentinel and
non-array result). -/
def cfBadPayload : CFPayload := { status := "FAILED", result := none }

/-- A Codechef payload rejected by the shape guard. -/
def ccBadPayload : CCPayload := { status := "error", contests := none }

/-- A LeetCode payload with neither expected key. -/
def lcEmptyPayload : LCPayload := { pastContests := none, topTwoContests := none }

/-! ## Supporting lemmas -/

theorem mapItems_ok_mem {α β : Type} (f : α → Except String β) :
    ∀ {l : List α} {l' : List β}, mapItems f l = .ok l' → ∀ b ∈ l', ∃ a ∈ l, f a = .ok b := by
  intro l
  induction l with
  | nil =>
    intro l' h b hb
    simp only [mapItems] at h
    cases h
    simp at hb
  | cons a t ih =>
    intro l' h b hb
    simp only [mapItems] at h
    cases hfa : f a with
    | error e => rw [hfa] at h; simp [Bind.bind, Except.bind] at h
    | ok b0 =>
      rw [hfa] at h
      cases hml : mapItems f t with
      | error e => rw [hml] at h; simp [Bind.bind, Except.bind] at h
      | ok bs =>
        rw [hml] at h
        simp only [Bind.bind, Except.bind, pure, Except.pure, Except.ok.injEq] at h
        subst h
        rcases List.mem_cons.mp hb with hb | hb
        · exact ⟨a, List.mem_cons_self a t, hb ▸ hfa⟩
        · obtain ⟨a', ha', hfa'⟩ := ih hml b hb
          exact ⟨a', List.mem_cons_of_mem a ha', hfa'⟩

theorem mapItems_ok_of_forall {α β : Type} (f : α → Except String β) :
    ∀ {l : List α}, (∀ a ∈ l, ∃ b, f a = .ok b) → ∃ l', mapItems f l = .ok l' := by
  intro l
  induction l with
  | nil => intro _; exact ⟨[], rfl⟩
  | cons a t ih =>
    intro h
    obtain ⟨b, hb⟩ := h a (List.mem_cons_self a t)
    obtain ⟨bs, hbs⟩ := ih (fun x hx => h x (List.mem_cons_of_mem a hx))
    exact ⟨b :: bs, by simp [mapItems, hb, hbs, Bind.bind, Except.bind, pure, Except.pure]⟩

theorem mapItems_error_of_mem {α β : Type} (f : α → Except String β) :
    ∀ {l : List α} {a : α} {e : String}, a ∈ l → f a = .error e →
      ∃ e', mapItems f l = .error e' := by
  intro l
  induction l with
  | nil => intro a e ha _; simp at ha
  | cons x t ih =>
    intro a e ha he
    rcases List.mem_cons.mp ha with h | h
    · subst h
      exact ⟨e, by simp [mapItems, he, Bind.bind, Except.bind]⟩
    · cases hfx : f x with
      | error e0 => exact ⟨e0, by simp [mapItems, hfx, Bind.bind, Except.bind]⟩
      | ok b =>
        obtain ⟨e', he'⟩ := ih h he
        exact ⟨e', by simp [mapItems, hfx, he', Bind.bind, Except.bind]⟩

theorem processSource_ok_mem {α : Type} (ad : α → Except String (List Contest)) :
    ∀ {rs : List (SettledResult α)} {l : List Contest},
      processSource ad rs = .ok l → ∀ c ∈ l,
        ∃ d l', SettledResult.fulfilled d ∈ rs ∧ ad d = .ok l' ∧ c ∈ l' := by
  intro rs
  induction rs with
  | nil =>
    intro l h c hc
    simp only [processSource] at h
    cases h
    simp at hc
  | cons r t ih =>
    intro l h c hc
    cases r with
    | rejected =>
      simp only [processSource] at h
      obtain ⟨d, l', hd, hok, hcl⟩ := ih h c hc
      exact ⟨d, l', List.mem_cons_of_mem _ hd, hok, hcl⟩
    | fulfilled d0 =>
      simp only [processSource] at h
      cases had : ad d0 with
      | error e => rw [had] at h; simp [Bind.bind, Except.bind] at h
      | ok cs =>
        rw [had] at h
        cases hps : processSource ad t with
        | error e => rw [hps] at h; simp [Bind.bind, Except.bind] at h
        | ok csRest =>
          rw [hps] at h
          simp only [Bind.bind, Except.bind, pure, Except.pure, Except.ok.injEq] at h
          subst h
          rcases List.mem_append.mp hc with hm | hm
          · exact ⟨d0, cs, List.mem_cons_self _ t, had, hm⟩
          · obtain ⟨d, l', hd, hok, hcl⟩ := ih hps c hm
            exact ⟨d, l', List.mem_cons_of_mem _ hd, hok, hcl⟩

theorem processSource_ok_of_forall {α : Type} (ad : α → Except String (List Contest)) :
    ∀ {rs : List (SettledResult α)},
      (∀ d, SettledResult.fulfilled d ∈ rs → ∃ l, ad d = .ok l) →
      ∃ l, processSource ad rs = .ok l := by
  intro rs
  induction rs with
  | nil => intro _; exact ⟨[], rfl⟩
  | cons r t ih =>
    intro h
    cases r with
    | rejected =>
      obtain ⟨l, hl⟩ := ih (fun d hd => h d (List.mem_cons_of_mem _ hd))
      exact ⟨l, by simpa [processSource] using hl⟩
    | fulfilled d0 =>
      obtain ⟨cs, hcs⟩ := h d0 (List.mem_cons_self _ t)
      obtain ⟨csRest, hrest⟩ := ih (fun d hd => h d (List.mem_cons_of_mem _ hd))
      exact ⟨cs ++ csRest,
        by simp [processSource, hcs, hrest, Bind.bind, Except.bind, pure, Except.pure]⟩

theorem processSource_error_of_mem {α : Type} (ad : α → Except String (List Contest)) :
    ∀ {rs : List (SettledResult α)} {d : α} {e : String},
      SettledResult.fulfilled d ∈ rs → ad d = .error e →
      ∃ e', processSource ad rs = .error e' := by
  intro rs
  induction rs with
  | nil => intro d e hd _; simp at hd
  | cons r t ih =>
    intro d e hd he
    rcases List.mem_cons.mp hd with h | h
    · subst h
      exact ⟨e, by simp [processSource, he, Bind.bind, Except.bind]⟩
    · cases r with
      | rejected =>
        obtain ⟨e', he'⟩ := ih h he
        exact ⟨e', by simpa [processSource] using he'⟩
      | fulfilled d0 =>
        cases had : ad d0 with
        | error e0 => exact ⟨e0, by simp [processSource, had, Bind.bind, Except.bind]⟩
        | ok cs =>
          obtain ⟨e', he'⟩ := ih h he
          exact ⟨e', by simp [processSource, had, he', Bind.bind, Except.bind]⟩

theorem processSource_rejected_middle {α : Type} (ad : α → Except String (List Contest))
    (pre post : List (SettledResult α)) :
    processSource ad (pre ++ SettledResult.rejected :: post) =
      processSource ad (pre ++ post) := by
  induction pre with
  | nil => simp [processSource]
  | cons r t ih =>
    cases r with
    | rejected => simpa [processSource] using ih
    | fulfilled d =>
      simp only [List.cons_append, processSource, List.append_eq]
      rw [ih]

theorem processSource_okEmpty_middle {α : Type} (ad : α → Except String (List Contest))
    {d : α} (h : ad d = .ok []) (pre post : List (SettledResult α)) :
    processSource ad (pre ++ SettledResult.fulfilled d :: post) =
      processSource ad (pre ++ post) := by
  induction pre with
  | nil =>
    simp only [List.nil_append, processSource, h]
    cases hps : processSource ad post with
    | error e => simp [Bind.bind, Except.bind]
    | ok cs => simp [Bind.bind, Except.bind, pure, Except.pure]
  | cons r t ih =>
    cases r with
    | rejected => simpa [processSource] using ih
    | fulfilled d0 =>
      simp only [List.cons_append, processSource, List.append_eq]
      rw [ih]

theorem cfAdapter_ok (now : Int) (p : CFPayload) : ∃ l, cfAdapter now p = .ok l := by
  unfold cfAdapter
  by_cases h : p.status = "OK"
  · simp only [h, if_true]
    cases p.result with
    | none => exact ⟨[], rfl⟩
    | some items => exact ⟨items.map (cfMapItem now), rfl⟩
  · exact ⟨[], by simp [h]⟩

theorem lcAdapter_ok (now : Int) (p : LCPayload) : ∃ l, lcAdapter now p = .ok l :=
  ⟨_, rfl⟩

theorem ccAdapter_ok_of_wf (now : Int) (p : CCPayload) (h : ccPayloadOk p = true) :
    ∃ l, ccAdapter now p = .ok l := by
  unfold ccAdapter
  by_cases hs : p.status = "success"
  · simp only [hs, if_true]
    cases hc : p.contests with
    | none => exact ⟨[], rfl⟩
    | some items =>
      apply mapItems_ok_of_forall
      intro it hit
      have hok : ccItemOk it = true := by
        have := h
        unfold ccPayloadOk at this
        rw [hc] at this
        exact List.all_eq_true.mp this it hit
      unfold ccItemOk at hok
      cases hname : it.contest_name with
      | none => rw [hname] at hok; simp at hok
      | some nm =>
        cases hcm : ccMapItem now it with
        | error e => simp [ccMapItem, hname] at hcm
        | ok b => exact ⟨b, rfl⟩
  · exact ⟨[], by simp [hs]⟩

theorem ccAdapter_error_of_bad (now : Int) (p : CCPayload) {items : List CCItem} {it : CCItem}
    (hs : p.status = "success") (hc : p.contests = some items)
    (hit : it ∈ items) (hb : it.contest_name = none) :
    ∃ e, ccAdapter now p = .error e := by
  unfold ccAdapter
  rw [hs, hc]
  simp only [if_true]
  have herr : ccMapItem now it = .error "TypeError: c.contest_name.replace is not a function" := by
    simp [ccMapItem, hb]
  exact mapItems_error_of_mem _ hit herr

theorem merged_ok_elim {now : Int} {inp : FetchInputs} {m : List Contest}
    (h : merged now inp = .ok m) :
    ∃ cf cc lc, processSource (cfAdapter now) inp.codeforces = .ok cf ∧
      processSource (ccAdapter now) inp.codechef = .ok cc ∧
      processSource (lcAdapter now) inp.leetcode = .ok lc ∧
      m = (cf ++ cc) ++ lc := by
  unfold merged at h
  cases hcf : processSource (cfAdapter now) inp.codeforces with
  | error e => rw [hcf] at h; simp [Bind.bind, Except.bind] at h
  | ok cf =>
    rw [hcf] at h
    cases hcc : processSource (ccAdapter now) inp.codechef with
    | error e => rw [hcc] at h; simp [Bind.bind, Except.bind] at h
    | ok cc =>
      rw [hcc] at h
      cases hlc : processSource (lcAdapter now) inp.leetcode with
      | error e => rw [hlc] at h; simp [Bind.bind, Except.bind] at h
      | ok lc =>
        rw [hlc] at h
        simp only [Bind.bind, Except.bind, pure, Except.pure, Except.ok.injEq] at h
        exact ⟨cf, cc, lc, rfl, rfl, rfl, h.symm⟩

theorem merged_ok_intro {now : Int} {inp : FetchInputs} {cf cc lc : List Contest}
    (hcf : processSource (cfAdapter now) inp.codeforces = .ok cf)
    (hcc : processSource (ccAdapter now) inp.codechef = .ok cc)
    (hlc : processSource (lcAdapter now) inp.leetcode = .ok lc) :
    merged now inp = .ok ((cf ++ cc) ++ lc) := by
  unfold merged
  simp [hcf, hcc, hlc, Bind.bind, Except.bind, pure, Except.pure]

theorem fetchContests_ok_elim {now : Int} {inp : FetchInputs} {l : List Contest}
    (h : fetchContests now inp = .ok l) :
    ∃ m, merged now inp = .ok m ∧ m ≠ [] ∧ l = sortByStart m := by
  unfold fetchContests at h
  cases hm : merged now inp with
  | error e => rw [hm] at h; cases h
  | ok m =>
    rw [hm] at h
    dsimp only at h
    by_cases hlen : m.length = 0
    · rw [if_pos hlen] at h; cases h
    · rw [if_neg hlen] at h
      cases h
      exact ⟨m, rfl, fun hnil => hlen (by simp [hnil]), rfl⟩

theorem merged_error_elim {now : Int} {inp : FetchInputs} {e : String}
    (h : merged now inp = .error e) : fetchContests now inp = .error e := by
  unfold fetchContests
  rw [h]

theorem startLE_iff (a b : Contest) :
    startLE a b = true ↔ a.startTimeSeconds ≤ b.startTimeSeconds := by
  simp [startLE]

theorem startLE_trans (a b c : Contest) (hab : startLE a b) (hbc : startLE b c) :
    startLE a c := by
  simp only [startLE, decide_eq_true_eq] at *
  omega

theorem startLE_total (a b : Contest) : startLE a b || startLE b a := by
  simp only [startLE, Bool.or_eq_true, decide_eq_true_eq]
  omega

theorem contains_iff_mem (l : List ContestId) (a : ContestId) :
    l.contains a = true ↔ a ∈ l := by
  simp

theorem mem_insertByStart {x a : Contest} {s : List Contest} :
    x ∈ insertByStart a s ↔ x = a ∨ x ∈ s := by
  induction s with
  | nil => simp [insertByStart]
  | cons d l ih =>
    unfold insertByStart
    by_cases hle : startLE a d
    · rw [if_pos hle]
      simp [List.mem_cons]
    · rw [if_neg hle]
      simp only [List.mem_cons, ih]
      tauto

theorem perm_insertByStart (a : Contest) (s : List Contest) :
    List.Perm (insertByStart a s) (a :: s) := by
  induction s with
  | nil => simp [insertByStart]
  | cons d l ih =>
    unfold insertByStart
    by_cases hle : startLE a d
    · rw [if_pos hle]
    · rw [if_neg hle]
      exact (ih.cons d).trans (List.Perm.swap a d l)

theorem perm_sortByStart (l : List Contest) : List.Perm (sortByStart l) l := by
  induction l with
  | nil => simp [sortByStart]
  | cons c l ih =>
    unfold sortByStart
    exact (perm_insertByStart c (sortByStart l)).trans (ih.cons c)

theorem pairwise_insertByStart (a : Contest) {s : List Contest}
    (h : List.Pairwise (fun x y => x.startTimeSeconds ≤ y.startTimeSeconds) s) :
    List.Pairwise (fun x y => x.startTimeSeconds ≤ y.startTimeSeconds) (insertByStart a s) := by
  induction s with
  | nil => simp [insertByStart]
  | cons d l ih =>
    unfold insertByStart
    obtain ⟨hdl, hl⟩ := List.pairwise_cons.mp h
    by_cases hle : startLE a d
    · rw [if_pos hle]
      have had : a.startTimeSeconds ≤ d.startTimeSeconds := (startLE_iff a d).mp hle
      refine List.pairwise_cons.mpr ⟨?_, h⟩
      intro x hx
      rcases List.mem_cons.mp hx with rfl | hx
      · omega
      · have := hdl x hx
        omega
    · rw [if_neg hle]
      have hda : d.startTimeSeconds ≤ a.startTimeSeconds := by
        simp only [startLE, decide_eq_true_eq] at hle
        omega
      refine List.pairwise_cons.mpr ⟨?_, ih hl⟩
      intro x hx
      rcases mem_insertByStart.mp hx with rfl | hx
      · omega
      · exact hdl x hx

theorem pairwise_sortByStart (l : List Contest) :
    List.Pairwise (fun x y => x.startTimeSeconds ≤ y.startTimeSeconds) (sortByStart l) := by
  induction l with
  | nil => simp [sortByStart]
  | cons c l ih =>
    unfold sortByStart
    exact pairwise_insertByStart c ih

theorem filter_insertByStart (t : Int) (a : Contest) (s : List Contest) :
    (insertByStart a s).filter (fun c => c.startTimeSeconds == t) =
      if a.startTimeSeconds = t then
        a :: s.filter (fun c => c.startTimeSeconds == t)
      else s.filter (fun c => c.startTimeSeconds == t) := by
  induction s with
  | nil =>
    by_cases hp : a.startTimeSeconds = t <;>
      simp [insertByStart, List.filter_cons, List.filter_nil, hp]
  | cons d l ih =>
    unfold insertByStart
    by_cases hle : startLE a d
    · rw [if_pos hle]
      by_cases hp : a.startTimeSeconds = t <;> simp [List.filter_cons, hp]
    · rw [if_neg hle]
      have hlt : d.startTimeSeconds < a.startTimeSeconds := by
        simp only [startLE, decide_eq_true_eq] at hle
        omega
      by_cases hp : a.startTimeSeconds = t
      · have hpd : ¬(d.startTimeSeconds = t) := by omega
        simp [List.filter_cons, hp, hpd, ih]
      · simp [List.filter_cons, hp, ih]

theorem filter_sortByStart (t : Int) (l : List Contest) :
    (sortByStart l).filter (fun c => c.startTimeSeconds == t) =
      l.filter (fun c => c.startTimeSeconds == t) := by
  induction l with
  | nil => simp [sortByStart]
  | cons c l ih =>
    unfold sortByStart
    rw [filter_insertByStart]
    by_cases hp : c.startTimeSeconds = t <;> simp [List.filter_cons, hp, ih]

theorem fetchContests_congr_codeforces (now : Int) (inp : FetchInputs)
    {l1 l2 : List (SettledResult CFPayload)}
    (h : processSource (cfAdapter now) l1 = processSource (cfAdapter now) l2) :
    fetchContests now { inp with codeforces := l1 } =
      fetchContests now { inp with codeforces := l2 } := by
  unfold fetchContests merged
  dsimp only
  rw [h]

theorem fetchContests_congr_codechef (now : Int) (inp : FetchInputs)
    {l1 l2 : List (SettledResult CCPayload)}
    (h : processSource (ccAdapter now) l1 = processSource (ccAdapter now) l2) :
    fetchContests now { inp with codechef := l1 } =
      fetchContests now { inp with codechef := l2 } := by
  unfold fetchContests merged
  dsimp only
  rw [h]

theorem fetchContests_congr_leetcode (now : Int) (inp : FetchInputs)
    {l1 l2 : List (SettledResult LCPayload)}
    (h : processSource (lcAdapter now) l1 = processSource (lcAdapter now) l2) :
    fetchContests now { inp with leetcode := l1 } =
      fetchContests now { inp with leetcode := l2 } := by
  unfold fetchContests merged
  dsimp only
  rw [h]

/-! ## Claim C3 — boundary behaviour of the status classification -/

/-- C3 counterexample: at `now = start + duration` exactly (start 1000,
duration 0, now 1000 = 1000 + 0) the code classifies RUNNING, not PAST as
the claim states: the PAST branch requires `now > start + duration`
strictly. -/
theorem c3_end_boundary_counterexample :
    classify 1000 0 (1000 + 0) = Status.RUNNING ∧ Status.RUNNING ≠ Status.PAST :=
  ⟨by decide, by decide⟩

/-- C3 amended: for every nonnegative duration the classification is
closed at both ends of the interval: equality at `start` yields RUNNING
(as the claim states) and equality at `start + duration` also yields
RUNNING (not PAST); PAST requires `now` strictly past the end. -/
theorem c3_boundaries_amended (start dur : Int) (h : 0 ≤ dur) :
    classify start dur start = Status.RUNNING ∧
    classify start dur (start + dur) = Status.RUNNING := by
  unfold classify
  constructor
  · rw [if_neg (by omega), if_pos (by omega)]
  · rw [if_neg (by omega), if_pos (by omega)]

/-- Witness for C3's amended theorem at start 1000, duration 0. -/
theorem c3_boundaries_amended_witness :
    (0 ≤ (0 : Int)) ∧
    (classify 1000 0 1000 = Status.RUNNING ∧
      classify 1000 0 (1000 + 0) = Status.RUNNING) :=
  ⟨by decide, c3_boundaries_amended 1000 0 (by decide)⟩

/-! ## Claim C4 — the end-to-end video example -/

/-- C4 counterexample: on the exact name of the claim,
`"Weekly Contest 400 (Rated for Div 2)"`, the suffix is NOT stripped (the
regex `/\(rated for div\.\s*\d\)/i` requires a literal period after
`div`, which this name lacks), and consequently the candidate of the
claim does not match: no URL is produced. -/
theorem c4_video_example_counterexample :
    getBaseContestName "Weekly Contest 400 (Rated for Div 2)" =
      "Weekly Contest 400 (Rated for Div 2)" ∧
    videoEx.title = "Weekly Contest 400 | TLE Eliminators" ∧
    videoEx.channel = "tle eliminators - by priyansh" ∧
    resolveVideoUrl "Weekly Contest 400 (Rated for Div 2)" [videoEx] = none :=
  ⟨by decide, rfl, rfl, by decide⟩

/-- C4 amended: with a period after `Div` — contest name
`"Weekly Contest 400 (Rated for Div. 2)"` — the suffix is stripped to base
name `"Weekly Contest 400"`, the claimed candidate matches, and the watch
URL of its videoId is produced. -/
theorem c4_video_example_amended :
    getBaseContestName "Weekly Contest 400 (Rated for Div. 2)" = "Weekly Contest 400" ∧
    resolveVideoUrl "Weekly Contest 400 (Rated for Div. 2)" [videoEx] =
      some "https://www.youtube.com/watch?v=abc123" :=
  ⟨by decide, by decide⟩

/-! ## Claim C5 — bookmark identity -/

/-- C5 counterexample: bookmarks are keyed by bare id, so toggling a
LeetCode contest removes the bookmark created for a Codechef contest with
the same id, although the sources differ — the (source, id) pair plays no
role in `toggleBookmark`. -/
theorem c5_bookmark_key_counterexample :
    ccContestDup.source ≠ lcContestDup.source ∧
    ccContestDup.id = lcContestDup.id ∧
    toggleBookmark [] ccContestDup.id = [ccContestDup.id] ∧
    toggleBookmark [ccContestDup.id] lcContestDup.id = [] :=
  ⟨by decide, by decide, by decide, by decide⟩

/-- C5 amended: global bookmark identity is the bare `id`, not the
(source, id) pair: toggling a contest toggles the presence of its id for
every contest sharing that id, from whatever source (stated for states in
which the id occurs at most once, as in every state built by toggles). -/
theorem c5_bookmark_key_amended (b : List ContestId) (c d : Contest)
    (hid : c.id = d.id) (h : b.count c.id ≤ 1) :
    toggleBookmark b c.id = toggleBookmark b d.id ∧
      ((c.id ∈ toggleBookmark b d.id) ↔ c.id ∉ b) := by
  refine ⟨by rw [hid], ?_⟩
  rw [← hid]
  unfold toggleBookmark
  by_cases hk : c.id ∈ b
  · rw [if_pos ((contains_iff_mem b _).mpr hk)]
    have hcount : (b.erase c.id).count c.id = 0 := by
      rw [List.count_erase_self]
      omega
    have hnk : c.id ∉ b.erase c.id := List.count_eq_zero.mp hcount
    exact ⟨fun hmem => absurd hmem hnk, fun hnb => absurd hk hnb⟩
  · rw [if_neg (fun hc => hk ((contains_iff_mem b _).mp hc))]
    simp [hk]

/-- Witness for C5's amended theorem: the two duplicate-id contests and
the singleton bookmark state holding their shared id. -/
theorem c5_bookmark_key_amended_witness :
    (ccContestDup.id = lcContestDup.id ∧
      [ccContestDup.id].count ccContestDup.id ≤ 1) ∧
    (toggleBookmark [ccContestDup.id] ccContestDup.id =
        toggleBookmark [ccContestDup.id] lcContestDup.id ∧
      ((ccContestDup.id ∈ toggleBookmark [ccContestDup.id] lcContestDup.id) ↔
        ccContestDup.id ∉ [ccContestDup.id])) :=
  ⟨⟨by decide, by decide⟩,
    c5_bookmark_key_amended [ccContestDup.id] ccContestDup lcContestDup
      (by decide) (by decide)⟩

/-! ## Claim C8 — toggle is its own inverse -/

/-- C8: toggling the same key twice restores the original bookmark set:
for every state in which the key occurs at most once (which holds for
every state built from the empty initial state by toggles), the double
toggle is a permutation of the original list — hence the same set — and
is literally the same list whenever the key was not bookmarked. -/
theorem c8_toggle_involution (b : List ContestId) (k : ContestId) (h : b.count k ≤ 1) :
    List.Perm (toggleBookmark (toggleBookmark b k) k) b ∧
      (k ∉ b → toggleBookmark (toggleBookmark b k) k = b) := by
  by_cases hk : k ∈ b
  · have h1 : toggleBookmark b k = b.erase k := by
      unfold toggleBookmark
      rw [if_pos ((contains_iff_mem b k).mpr hk)]
    have hcount : (b.erase k).count k = 0 := by
      rw [List.count_erase_self]
      omega
    have hnk : k ∉ b.erase k := List.count_eq_zero.mp hcount
    have h2 : toggleBookmark (b.erase k) k = b.erase k ++ [k] := by
      unfold toggleBookmark
      rw [if_neg (fun hc => hnk ((contains_iff_mem _ k).mp hc))]
    rw [h1, h2]
    exact ⟨(List.perm_append_singleton k _).trans (List.perm_cons_erase hk).symm,
      fun hnb => absurd hk hnb⟩
  · have h1 : toggleBookmark b k = b ++ [k] := by
      unfold toggleBookmark
      rw [if_neg (fun hc => hk ((contains_iff_mem b k).mp hc))]
    have h2 : toggleBookmark (b ++ [k]) k = b := by
      unfold toggleBookmark
      rw [if_pos ((contains_iff_mem _ k).mpr (by simp))]
      rw [List.erase_append_right _ (by simpa using hk)]
      simp
    rw [h1, h2]
    exact ⟨List.Perm.refl b, fun _ => rfl⟩

/-- Witness for C8 on the singleton state holding the toggled key. -/
theorem c8_toggle_involution_witness :
    ([ContestId.num 7].count (ContestId.num 7) ≤ 1) ∧
    (List.Perm
        (toggleBookmark (toggleBookmark [ContestId.num 7] (ContestId.num 7))
          (ContestId.num 7)) [ContestId.num 7] ∧
      (ContestId.num 7 ∉ [ContestId.num 7] →
        toggleBookmark (toggleBookmark [ContestId.num 7] (ContestId.num 7))
          (ContestId.num 7) = [ContestId.num 7])) :=
  ⟨by decide, c8_toggle_involution [ContestId.num 7] (ContestId.num 7) (by decide)⟩

/-! ## Claim C9 — markup extraction never throws -/

/-- C9: for every HTML input to the video resolution path, an absent
embedded-data marker yields the null video URL, and a captured text on
which structured-data parsing fails (the parser returning `none` models a
`JSON.parse` exception caught at the boundary) also yields the null video
URL; `videoUrlFromHtml` is total, so no exception propagates. -/
theorem c9_extraction_failure_yields_null {α : Type} (parseJson : String → Option α)
    (resolve : α → Option String) (html : String) :
    (extractInitialData html.data = none →
      videoUrlFromHtml parseJson resolve html = none) ∧
    (∀ captured, extractInitialData html.data = some captured →
      parseJson (String.mk captured) = none →
      videoUrlFromHtml parseJson resolve html = none) := by
  constructor
  · intro h
    unfold videoUrlFromHtml
    rw [h]
  · intro captured hcap hparse
    unfold videoUrlFromHtml
    rw [hcap]
    dsimp only
    rw [hparse]

/-- Witness for C9: a page with no marker, and a page whose captured text
is rejected by the parser; both resolve to the null video URL. -/
theorem c9_extraction_failure_witness :
    (extractInitialData ("<html>no marker here</html>").data = none ∧
      videoUrlFromHtml (fun _ : String => (none : Option Unit)) (fun _ => none)
        "<html>no marker here</html>" = none) ∧
    (extractInitialData ("var ytInitialData = {x};</script>").data =
        some ("{x}".data) ∧
      videoUrlFromHtml (fun _ : String => (none : Option Unit)) (fun _ => none)
        "var ytInitialData = {x};</script>" = none) :=
  ⟨⟨by decide,
    (c9_extraction_failure_yields_null (fun _ : String => (none : Option Unit))
      (fun _ => none) "<html>no marker here</html>").1 (by decide)⟩,
   ⟨by decide,
    (c9_extraction_failure_yields_null (fun _ : String => (none : Option Unit))
      (fun _ => none) "var ytInitialData = {x};</script>").2 ("{x}".data)
      (by decide) rfl⟩⟩

/-! ## Claim C6 — failing endpoints and shape-guard rejections are isolated -/

/-- C6: a payload rejected by its source's shape guard contributes zero
records without throwing (the adapter yields `.ok []`), and removing a
rejected endpoint or such a guarded payload from any position of any
source's endpoint list leaves the whole aggregation result unchanged —
sibling endpoints of the same source and the other sources are
unaffected. -/
theorem c6_failed_endpoints_isolated (now : Int) (inp : FetchInputs)
    (p : CFPayload) (q : CCPayload) (r : LCPayload)
    (hp : p.status ≠ "OK" ∨ p.result = none)
    (hq : q.status ≠ "success" ∨ q.contests = none)
    (hr : r.pastContests = none ∧ r.topTwoContests = none)
    (preCF postCF : List (SettledResult CFPayload))
    (preCC postCC : List (SettledResult CCPayload))
    (preLC postLC : List (SettledResult LCPayload)) :
    cfAdapter now p = .ok [] ∧ ccAdapter now q = .ok [] ∧ lcAdapter now r = .ok [] ∧
    fetchContests now { inp with codeforces := preCF ++ SettledResult.rejected :: postCF } =
      fetchContests now { inp with codeforces := preCF ++ postCF } ∧
    fetchContests now { inp with codechef := preCC ++ SettledResult.rejected :: postCC } =
      fetchContests now { inp with codechef := preCC ++ postCC } ∧
    fetchContests now { inp with leetcode := preLC ++ SettledResult.rejected :: postLC } =
      fetchContests now { inp with leetcode := preLC ++ postLC } ∧
    fetchContests now { inp with codeforces := preCF ++ SettledResult.fulfilled p :: postCF } =
      fetchContests now { inp with codeforces := preCF ++ postCF } ∧
    fetchContests now { inp with codechef := preCC ++ SettledResult.fulfilled q :: postCC } =
      fetchContests now { inp with codechef := preCC ++ postCC } ∧
    fetchContests now { inp with leetcode := preLC ++ SettledResult.fulfilled r :: postLC } =
      fetchContests now { inp with leetcode := preLC ++ postLC } := by
  have hpa : cfAdapter now p = .ok [] := by
    rcases hp with h | h
    · simp [cfAdapter, h]
    · by_cases hst : p.status = "OK" <;> simp [cfAdapter, hst, h]
  have hqa : ccAdapter now q = .ok [] := by
    rcases hq with h | h
    · simp [ccAdapter, h]
    · by_cases hst : q.status = "success" <;> simp [ccAdapter, hst, h]
  have hra : lcAdapter now r = .ok [] := by
    simp [lcAdapter, hr.1, hr.2]
  refine ⟨hpa, hqa, hra, ?_, ?_, ?_, ?_, ?_, ?_⟩
  · exact fetchContests_congr_codeforces now inp
      (processSource_rejected_middle (cfAdapter now) preCF postCF)
  · exact fetchContests_congr_codechef now inp
      (processSource_rejected_middle (ccAdapter now) preCC postCC)
  · exact fetchContests_congr_leetcode now inp
      (processSource_rejected_middle (lcAdapter now) preLC postLC)
  · exact fetchContests_congr_codeforces now inp
      (processSource_okEmpty_middle (cfAdapter now) hpa preCF postCF)
  · exact fetchContests_congr_codechef now inp
      (processSource_okEmpty_middle (ccAdapter now) hqa preCC postCC)
  · exact fetchContests_congr_leetcode now inp
      (processSource_okEmpty_middle (lcAdapter now) hra preLC postLC)

/-- Witness for C6: concrete guard-failing payloads inserted in front of a
working LeetCode source. -/
theorem c6_failed_endpoints_isolated_witness :
    ((cfBadPayload.status ≠ "OK" ∨ cfBadPayload.result = none) ∧
      (ccBadPayload.status ≠ "success" ∨ ccBadPayload.contests = none) ∧
      (lcEmptyPayload.pastContests = none ∧ lcEmptyPayload.topTwoContests = none)) ∧
    (cfAdapter 120 cfBadPayload = .ok [] ∧ ccAdapter 120 ccBadPayload = .ok [] ∧
      lcAdapter 120 lcEmptyPayload = .ok [] ∧
      fetchContests 120 { inpLCOnly with codeforces := [] ++ SettledResult.rejected :: [] } =
        fetchContests 120 { inpLCOnly with codeforces := [] ++ [] } ∧
      fetchContests 120 { inpLCOnly with codechef := [] ++ SettledResult.rejected :: [] } =
        fetchContests 120 { inpLCOnly with codechef := [] ++ [] } ∧
      fetchContests 120 { inpLCOnly with leetcode := [] ++ SettledResult.rejected :: [] } =
        fetchContests 120 { inpLCOnly with leetcode := [] ++ [] } ∧
      fetchContests 120
          { inpLCOnly with codeforces := [] ++ SettledResult.fulfilled cfBadPayload :: [] } =
        fetchContests 120 { inpLCOnly with codeforces := [] ++ [] } ∧
      fetchContests 120
          { inpLCOnly with codechef := [] ++ SettledResult.fulfilled ccBadPayload :: [] } =
        fetchContests 120 { inpLCOnly with codechef := [] ++ [] } ∧
      fetchContests 120
          { inpLCOnly with leetcode := [] ++ SettledResult.fulfilled lcEmptyPayload :: [] } =
        fetchContests 120 { inpLCOnly with leetcode := [] ++ [] }) :=
  ⟨⟨Or.inl (by decide), Or.inl (by decide), ⟨rfl, rfl⟩⟩,
    c6_failed_endpoints_isolated 120 inpLCOnly cfBadPayload ccBadPayload lcEmptyPayload
      (Or.inl (by decide)) (Or.inl (by decide)) ⟨rfl, rfl⟩ [] [] [] [] [] []⟩

/-! ## Claim C10 — a throwing payload item rejects the whole aggregation -/

/-- C10: if any fulfilled Codechef payload passes the shape guard and
contains an item whose `contest_name` is not a string — so the per-item
mapping throws — the entire aggregation rejects with an error: records
already collected from other endpoints and sources are discarded, never
returned as a partial success. -/
theorem c10_item_throw_rejects_aggregation (now : Int) (inp : FetchInputs)
    (p : CCPayload) (items : List CCItem) (it : CCItem)
    (hmem : SettledResult.fulfilled p ∈ inp.codechef)
    (hs : p.status = "success") (hc : p.contests = some items)
    (hit : it ∈ items) (hb : it.contest_name = none) :
    ∃ e, fetchContests now inp = .error e := by
  obtain ⟨cf, hcf⟩ := processSource_ok_of_forall (cfAdapter now) (fun d _ => cfAdapter_ok now d)
  obtain ⟨e0, he0⟩ := ccAdapter_error_of_bad now p hs hc hit hb
  obtain ⟨e1, he1⟩ := processSource_error_of_mem (ccAdapter now) hmem he0
  refine ⟨e1, ?_⟩
  unfold fetchContests merged
  rw [hcf, he1]
  simp [Bind.bind, Except.bind]

/-- Witness for C10: the Codeforces endpoint yields a record, the Codechef
payload holds the throwing item, and the aggregation is an error. -/
theorem c10_item_throw_witness :
    (SettledResult.fulfilled ccThrowPayload ∈ inpMixedBad.codechef ∧
      ccThrowPayload.status = "success" ∧
      ccThrowPayload.contests = some [ccBadItem] ∧
      ccBadItem ∈ [ccBadItem] ∧ ccBadItem.contest_name = none) ∧
    (∃ e, fetchContests 0 inpMixedBad = .error e) :=
  ⟨⟨by decide, rfl, rfl, by decide, rfl⟩,
    c10_item_throw_rejects_aggregation 0 inpMixedBad ccThrowPayload [ccBadItem] ccBadItem
      (by decide) rfl rfl (by decide) rfl⟩

/-! ## Claim C2 — error exactly on an empty merged list -/

/-- C2 counterexample: the Codeforces endpoint of `inpMixedBad` yields one
record — at least one endpoint of one source yielded records — yet the
aggregation is an error, because a later Codechef payload item throws
during mapping; the collected record is discarded.  This refutes the
claim that any partial success is a non-error result. -/
theorem c2_partial_success_counterexample :
    processSource (cfAdapter 0) inpMixedBad.codeforces = .ok [cfContestEx] ∧
    [cfContestEx] ≠ [] ∧
    fetchContests 0 inpMixedBad =
      .error "TypeError: c.contest_name.replace is not a function" :=
  ⟨rfl, by decide, rfl⟩

/-- C2 amended: provided no accepted payload item makes its per-item
mapping throw (`itemsWellFormed`), the aggregation returns a hard error
exactly when the merged list is empty, and otherwise succeeds with the
sorted merged records — so any partial success is a non-error result
containing those records. -/
theorem c2_error_iff_empty_amended (now : Int) (inp : FetchInputs)
    (h : itemsWellFormed inp = true) :
    ∃ m, merged now inp = .ok m ∧
      (m = [] →
        fetchContests now inp = .error "No contests could be fetched from any source") ∧
      (m ≠ [] → fetchContests now inp = .ok (sortByStart m)) := by
  obtain ⟨cf, hcf⟩ := processSource_ok_of_forall (cfAdapter now) (fun d _ => cfAdapter_ok now d)
  have hccall : ∀ d, SettledResult.fulfilled d ∈ inp.codechef → ∃ l, ccAdapter now d = .ok l := by
    intro d hd
    apply ccAdapter_ok_of_wf
    unfold itemsWellFormed at h
    have := List.all_eq_true.mp h _ hd
    simpa [settledCCOk] using this
  obtain ⟨cc, hcc⟩ := processSource_ok_of_forall (ccAdapter now) hccall
  obtain ⟨lc, hlc⟩ := processSource_ok_of_forall (lcAdapter now) (fun d _ => lcAdapter_ok now d)
  refine ⟨(cf ++ cc) ++ lc, merged_ok_intro hcf hcc hlc, ?_, ?_⟩
  · intro hm
    unfold fetchContests
    rw [merged_ok_intro hcf hcc hlc, hm]
    simp
  · intro hm
    unfold fetchContests
    rw [merged_ok_intro hcf hcc hlc]
    dsimp only
    rw [if_neg (fun hlen => hm (List.length_eq_zero.mp hlen))]

/-- Witness for C2's amended theorem on well-formed inputs with one
record: the merged list is nonempty and the aggregation succeeds. -/
theorem c2_error_iff_empty_witness :
    itemsWellFormed inpLCOnly = true ∧
    (∃ m, merged 120 inpLCOnly = .ok m ∧
      (m = [] →
        fetchContests 120 inpLCOnly = .error "No contests could be fetched from any source") ∧
      (m ≠ [] → fetchContests 120 inpLCOnly = .ok (sortByStart m))) :=
  ⟨by decide, c2_error_iff_empty_amended 120 inpLCOnly (by decide)⟩

/-! ## Claim C7 — sortedness and stability of the result -/

/-- C7: a successful aggregation is sorted ascending by
`startTimeSeconds` (pairwise, hence for every pair of adjacent records),
is a permutation of the merged pre-sort list, and ties are stable:
filtering the output by any fixed start time returns exactly the
corresponding filtered slice of the pre-sort list, in its original
order. -/
theorem c7_sorted_and_stable (now : Int) (inp : FetchInputs) (m l : List Contest)
    (hm : merged now inp = .ok m) (hl : fetchContests now inp = .ok l) :
    List.Pairwise (fun a b => a.startTimeSeconds ≤ b.startTimeSeconds) l ∧
    List.Perm l m ∧
    ∀ t : Int, l.filter (fun c => c.startTimeSeconds == t) =
      m.filter (fun c => c.startTimeSeconds == t) := by
  obtain ⟨m', hm', hne, hsort⟩ := fetchContests_ok_elim hl
  rw [hm] at hm'
  cases hm'
  subst hsort
  exact ⟨pairwise_sortByStart m, perm_sortByStart m, fun t => filter_sortByStart t m⟩

/-- Witness for C7 on three Codeforces records, two tying on start time:
the result is the stable ascending reordering. -/
theorem c7_sorted_and_stable_witness :
    (merged 150 inpSortWitness = .ok mSortWitness ∧
      fetchContests 150 inpSortWitness = .ok lSortWitness) ∧
    (List.Pairwise (fun a b => a.startTimeSeconds ≤ b.startTimeSeconds) lSortWitness ∧
      List.Perm lSortWitness mSortWitness ∧
      ∀ t : Int, lSortWitness.filter (fun c => c.startTimeSeconds == t) =
        mSortWitness.filter (fun c => c.startTimeSeconds == t)) :=
  ⟨⟨rfl, rfl⟩, c7_sorted_and_stable 150 inpSortWitness mSortWitness lSortWitness rfl rfl⟩

/-! ## Claim C1 — status of every aggregated record -/

/-- C1 counterexample: a successful aggregation containing a LeetCode
record whose contest is running at `now = 120` (start 100, duration 50):
its status is PAST although the §4.3 classification of
(start, duration, now) is RUNNING — the LeetCode branch ignores the
duration and never produces RUNNING. -/
theorem c1_status_counterexample :
    fetchContests 120 inpLCOnly = .ok [lcContestEx] ∧
    lcContestEx.status = Status.PAST ∧
    classify lcContestEx.startTimeSeconds lcContestEx.durationSeconds 120 = Status.RUNNING :=
  ⟨rfl, rfl, by decide⟩

/-- C1 amended: in every successful aggregation, Codeforces and Codechef
records carry exactly the classification of
(startTimeSeconds, durationSeconds, now), while LeetCode records carry
UPCOMING when `now < startTimeSeconds` and PAST otherwise (their duration
is ignored; RUNNING never occurs for them). -/
theorem c1_status_classification_amended (now : Int) (inp : FetchInputs)
    (l : List Contest) (h : fetchContests now inp = .ok l) :
    ∀ c ∈ l,
      (c.source = "Codeforces" →
        c.status = classify c.startTimeSeconds c.durationSeconds now) ∧
      (c.source = "Codechef" →
        c.status = classify c.startTimeSeconds c.durationSeconds now) ∧
      (c.source = "LeetCode" →
        c.status = if now < c.startTimeSeconds then Status.UPCOMING else Status.PAST) := by
  intro c hc
  obtain ⟨m, hm, hne, hsort⟩ := fetchContests_ok_elim h
  subst hsort
  have hcm : c ∈ m := (perm_sortByStart m).mem_iff.mp hc
  obtain ⟨cf, cc, lc, hcf, hcc, hlc, hmeq⟩ := merged_ok_elim hm
  subst hmeq
  rcases List.mem_append.mp hcm with hcm' | hlcm
  · rcases List.mem_append.mp hcm' with hcfm | hccm
    · obtain ⟨d, l', _, hok, hcl⟩ := processSource_ok_mem _ hcf c hcfm
      unfold cfAdapter at hok
      by_cases hst : d.status = "OK"
      · rw [if_pos hst] at hok
        cases hres : d.result with
        | none => rw [hres] at hok; cases hok; simp at hcl
        | some items =>
          rw [hres] at hok
          cases hok
          obtain ⟨item, _, hci⟩ := List.mem_map.mp hcl
          subst hci
          exact ⟨fun _ => rfl, fun hs => by simp [cfMapItem] at hs,
            fun hs => by simp [cfMapItem] at hs⟩
      · rw [if_neg hst] at hok
        cases hok
        simp at hcl
    · obtain ⟨d, l', _, hok, hcl⟩ := processSource_ok_mem _ hcc c hccm
      unfold ccAdapter at hok
      by_cases hst : d.status = "success"
      · rw [if_pos hst] at hok
        cases hres : d.contests with
        | none => rw [hres] at hok; cases hok; simp at hcl
        | some items =>
          rw [hres] at hok
          obtain ⟨item, _, hci⟩ := mapItems_ok_mem _ hok c hcl
          unfold ccMapItem at hci
          cases hname : item.contest_name with
          | none => rw [hname] at hci; cases hci
          | some nm =>
            rw [hname] at hci
            cases hci
            exact ⟨fun hs => by simp at hs, fun _ => rfl, fun hs => by simp at hs⟩
      · rw [if_neg hst] at hok
        cases hok
        simp at hcl
  · obtain ⟨d, l', _, hok, hcl⟩ := processSource_ok_mem _ hlc c hlcm
    unfold lcAdapter at hok
    cases hok
    obtain ⟨item, _, hci⟩ := List.mem_map.mp hcl
    subst hci
    exact ⟨fun hs => by simp [lcMapItem] at hs, fun hs => by simp [lcMapItem] at hs,
      fun _ => rfl⟩

/-- Witness for C1's amended theorem on the single-record LeetCode
aggregation at `now = 120`. -/
theorem c1_status_classification_witness :
    fetchContests 120 inpLCOnly = .ok [lcContestEx] ∧
    ((lcContestEx.source = "Codeforces" →
        lcContestEx.status =
          classify lcContestEx.startTimeSeconds lcContestEx.durationSeconds 120) ∧
      (lcContestEx.source = "Codechef" →
        lcContestEx.status =
          classify lcContestEx.startTimeSeconds lcContestEx.durationSeconds 120) ∧
      (lcContestEx.source = "LeetCode" →
        lcContestEx.status =
          if (120 : Int) < lcContestEx.startTimeSeconds then Status.UPCOMING
          else Status.PAST)) :=
  ⟨rfl, c1_status_classification_amended 120 inpLCOnly [lcContestEx] rfl lcContestEx
    (by decide)⟩

end ContestWeb
